import Mathlib

/-!
Verification development for the `SchemaInfo` call–alias analyzer declared in
`torch/csrc/utils/schema_info.h`.

The repository fragment contains only the class declaration: the fields
`value_map_`, `input_alias_map_` (documented in the header as "Alias map of
inputs with each other"), `schema_`, `updated_`, the two inline constructors,
and the signatures of the queries and binding operations.  The bodies of
`is_mutable`, `addArgumentValue`, `addArgumentValues` and `generateAliasMaps`
are not part of the fragment; every definition below that embeds one of those
bodies is therefore modelled from the specification document, restricted to
the state the header actually declares.
-/

set_option autoImplicit false

deriving instance DecidableEq for Except

namespace TorchUtils

/-- Static alias annotation of one argument or return position: the alias-set
identifier it belongs to and its "may write" flag. -/
structure AliasInfo where
  setId : String
  mayWrite : Bool
  deriving DecidableEq

/-- One argument descriptor of a schema: a name (unique among the arguments)
and an optional static alias annotation. -/
structure Argument where
  name : String
  aliasInfo : Option AliasInfo
  deriving DecidableEq

/-- A function schema: an ordered list of argument descriptors and an ordered
list of return positions, each return carrying an optional static alias
annotation. -/
structure FunctionSchema where
  arguments : List Argument
  returns : List (Option AliasInfo)
  deriving DecidableEq

/-- A bound runtime value, treated as an opaque identity-bearing handle; two
values are the same identity exactly when their `id` fields agree. -/
structure IValue where
  id : Nat
  deriving DecidableEq

/-- Binding map from argument name to bound value; an association list whose
keys are kept unique by `insertValue`. -/
abbrev ValueMap := List (String × IValue)

/-- First binding stored for `name`, if any. -/
def ValueMap.find (m : ValueMap) (name : String) : Option IValue :=
  match m with
  | [] => none
  | p :: rest => if p.1 = name then some p.2 else ValueMap.find rest name

/-- Overwriting insert: the new pair replaces every previous binding of
`name`. -/
def ValueMap.insertValue (m : ValueMap) (name : String) (v : IValue) : ValueMap :=
  (name, v) :: m.filter (fun p => p.1 != name)

/-- Number of argument positions. -/
def FunctionSchema.argumentCount (sch : FunctionSchema) : Nat :=
  sch.arguments.length

/-- Name of the argument at position `i`, when it exists. -/
def FunctionSchema.argumentName (sch : FunctionSchema) (i : Nat) : Option String :=
  (sch.arguments.get? i).map Argument.name

/-- Index of the argument called `name`, when it exists. -/
def FunctionSchema.argumentIndexWithName (sch : FunctionSchema) (name : String) :
    Option Nat :=
  sch.arguments.findIdx? (fun a => a.name == name)

/-- Whether some argument of the schema is called `name`. -/
def FunctionSchema.hasArgument (sch : FunctionSchema) (name : String) : Bool :=
  sch.arguments.any (fun a => a.name == name)

/-- The flattened position space of the analyzer: argument positions first, in
order, followed by the return positions. -/
def FunctionSchema.positionInfos (sch : FunctionSchema) : List (Option AliasInfo) :=
  sch.arguments.map Argument.aliasInfo ++ sch.returns

/-- Total number of argument plus return positions. -/
def FunctionSchema.numPositions (sch : FunctionSchema) : Nat :=
  sch.arguments.length + sch.returns.length

/-- Static alias annotation of the flattened position `p` (arguments first,
then returns); `none` when `p` carries no annotation or is out of range. -/
def FunctionSchema.positionAliasInfo (sch : FunctionSchema) (p : Nat) :
    Option AliasInfo :=
  sch.positionInfos.getD p none

/-- Raw "may write" flag of an optional static annotation: an unannotated
position has no alias set and its raw flag reads as `false`. -/
def rawMayWrite (oi : Option AliasInfo) : Bool :=
  match oi with
  | some ai => ai.mayWrite
  | none => false

/-- A position is mutable-for-this-call iff its static "may write" flag is
set (spec §4.3, precise rule). -/
def FunctionSchema.mutableForCall (sch : FunctionSchema) (p : Nat) : Bool :=
  rawMayWrite (sch.positionAliasInfo p)

/-- Logical OR of every position's raw `mayWrite` flag, arguments and returns
alike. -/
def FunctionSchema.rawMayWriteOr (sch : FunctionSchema) : Bool :=
  (sch.arguments.map (fun a => rawMayWrite a.aliasInfo)
    ++ sch.returns.map rawMayWrite).any id

/-- Two flattened positions are in the same static alias set iff both carry a
static annotation and the annotations name the same alias-set identifier. -/
def FunctionSchema.sameStaticSet (sch : FunctionSchema) (p q : Nat) : Bool :=
  match sch.positionAliasInfo p, sch.positionAliasInfo q with
  | some a, some b => a.setId == b.setId
  | _, _ => false

/-- Error kinds surfaced by the analyzer (spec §7). -/
inductive SchemaError where
  | unknownArgument
  | outOfRange
  | arityMismatch
  deriving DecidableEq

/-- The analyzer state declared in `schema_info.h`: the binding map
`value_map_`, the `input_alias_map_` ("Alias map of inputs with each other"),
the wrapped `schema_`, and the dirty bit `updated_` (`false` = stale). -/
structure SchemaInfo where
  value_map_ : ValueMap
  input_alias_map_ : List (List Nat)
  schema_ : FunctionSchema
  updated_ : Bool
  deriving DecidableEq

/-- `SchemaInfo(c10::FunctionSchema)`: stores the schema, leaves the maps
default-empty and initializes `updated_` to `false`, as the header's inline
constructor does. -/
def SchemaInfo.ofSchema (schema : FunctionSchema) : SchemaInfo :=
  { value_map_ := [], input_alias_map_ := [], schema_ := schema, updated_ := false }

/-- `SchemaInfo(const char*)`: parses the signature with the external parser
(taken here as a parameter, since `parseSchema` is an external collaborator)
and otherwise initializes exactly as `SchemaInfo.ofSchema`. -/
def SchemaInfo.ofSignature (parse : String → FunctionSchema)
    (signature : String) : SchemaInfo :=
  { value_map_ := [], input_alias_map_ := [], schema_ := parse signature,
    updated_ := false }

/-- Value currently bound to the argument at position `i`, if any (return
positions have no caller-bound value). -/
def SchemaInfo.boundValueAt (s : SchemaInfo) (i : Nat) : Option IValue :=
  match s.schema_.argumentName i with
  | some n => s.value_map_.find n
  | none => none

/-- Modelled from the spec: the refined alias edge between argument positions
`i` and `j` (the body of `SchemaInfo::generateAliasMaps` is not in the
fragment).  Spec §4.2: the pair starts with an edge iff the static
annotations place the two positions in the same alias set; when both carry a
bound value the edge is kept iff the values are the same identity; when
either is unbound the static edge is left unchanged. -/
def SchemaInfo.callEdge (s : SchemaInfo) (i j : Nat) : Bool :=
  s.schema_.sameStaticSet i j &&
    (match s.boundValueAt i, s.boundValueAt j with
     | some v, some w => v.id == w.id
     | _, _ => true)

/-- Modelled from the spec: `SchemaInfo::generateAliasMaps` (body not in the
fragment).  Recomputes `input_alias_map_` in full — one entry per argument
position, holding the other argument positions whose refined edge survives
(self-pairs skipped, spec §4.2) — and marks the graph clean.  The result is
restricted to argument positions because the only alias storage the header
declares is `input_alias_map_`, documented as "Alias map of inputs with each
other". -/
def SchemaInfo.generateAliasMaps (s : SchemaInfo) : SchemaInfo :=
  { s with
    input_alias_map_ :=
      (List.range s.schema_.arguments.length).map
        (fun i => (List.range s.schema_.arguments.length).filter
          (fun j => j != i && s.callEdge i j)),
    updated_ := true }

/-- Lazy regeneration: rebuild the alias maps iff the graph is stale. -/
def SchemaInfo.ensureUpdated (s : SchemaInfo) : SchemaInfo :=
  if s.updated_ then s else s.generateAliasMaps

/-- Alias set recorded for position `p` (empty when `p` has no entry). -/
def SchemaInfo.aliasSetOf (s : SchemaInfo) (p : Nat) : List Nat :=
  s.input_alias_map_.getD p []

/-- Modelled from the spec: `SchemaInfo::addArgumentValue` (body not in the
fragment).  Fails with `unknownArgument` when `name` is not a schema
argument; otherwise overwrites the binding and marks the graph stale, with no
other side effect (spec §4.1). -/
def SchemaInfo.addArgumentValue (s : SchemaInfo) (name : String) (value : IValue) :
    Except SchemaError Unit × SchemaInfo :=
  if s.schema_.hasArgument name then
    (Except.ok (),
      { s with value_map_ := s.value_map_.insertValue name value, updated_ := false })
  else
    (Except.error SchemaError.unknownArgument, s)

/-- Pairs each argument descriptor with the optional value supplied for it,
in signature order, stopping at the shorter list. -/
def zipBindings : List Argument → List (Option IValue) → List (String × Option IValue)
  | _, [] => []
  | [], _ :: _ => []
  | a :: as, ov :: ovs => (a.name, ov) :: zipBindings as ovs

/-- Applies positional bindings left to right; a "no value" entry leaves its
argument untouched. -/
def applyPositional (m : ValueMap) : List (String × Option IValue) → ValueMap
  | [] => m
  | (n, some v) :: rest => applyPositional (m.insertValue n v) rest
  | (_, none) :: rest => applyPositional m rest

/-- Modelled from the spec: the positional overload of
`SchemaInfo::addArgumentValues` (body not in the fragment).  Fails with
`arityMismatch` when the list is longer than the schema arity, leaving the
state untouched; otherwise binds each argument in signature order, skipping
"no value" entries, and marks the graph stale once at the end (spec §4.1). -/
def SchemaInfo.addArgumentValues (s : SchemaInfo) (value_list : List (Option IValue)) :
    Except SchemaError Unit × SchemaInfo :=
  if s.schema_.arguments.length < value_list.length then
    (Except.error SchemaError.arityMismatch, s)
  else
    (Except.ok (),
      { s with
        value_map_ := applyPositional s.value_map_
          (zipBindings s.schema_.arguments value_list),
        updated_ := false })

/-- Modelled from the spec: the map overload of
`SchemaInfo::addArgumentValues` (body not in the fragment).  Fails with
`unknownArgument` when some key is not a schema argument name, leaving the
state untouched; otherwise binds every named entry and marks the graph stale
once (spec §4.1, §7 atomicity). -/
def SchemaInfo.addArgumentValuesMap (s : SchemaInfo)
    (values : List (String × IValue)) : Except SchemaError Unit × SchemaInfo :=
  if values.all (fun p => s.schema_.hasArgument p.1) then
    (Except.ok (),
      { s with
        value_map_ := values.foldl (fun m p => m.insertValue p.1 p.2) s.value_map_,
        updated_ := false })
  else
    (Except.error SchemaError.unknownArgument, s)

/-- Modelled from the spec: whole-call `SchemaInfo::is_mutable()` (body not
in the fragment).  Regenerates the alias graph if stale, then reports whether
some argument or return position is mutable-for-this-call, i.e. has its
static "may write" flag set (spec §4.3, precise rule). -/
def SchemaInfo.is_mutable (s : SchemaInfo) : Bool × SchemaInfo :=
  let t := s.ensureUpdated
  ((List.range t.schema_.numPositions).any (fun p => t.schema_.mutableForCall p), t)

/-- Modelled from the spec: `SchemaInfo::is_mutable(size_t)` (body not in the
fragment).  Fails with `outOfRange` when the position does not exist, without
touching the state; otherwise regenerates the graph if stale and returns the
position's mutable-for-this-call flag (spec §4.3, §7). -/
def SchemaInfo.is_mutable_idx (s : SchemaInfo) (index : Nat) :
    Except SchemaError Bool × SchemaInfo :=
  if index < s.schema_.numPositions then
    let t := s.ensureUpdated
    (Except.ok (t.schema_.mutableForCall index), t)
  else
    (Except.error SchemaError.outOfRange, s)

/-- Modelled from the spec: `SchemaInfo::is_mutable(c10::string_view)` (body
not in the fragment).  Fails with `unknownArgument` when no argument bears
the name, without touching the state; otherwise answers as the positional
query at that argument's index (spec §4.3, §7). -/
def SchemaInfo.is_mutable_name (s : SchemaInfo) (name : String) :
    Except SchemaError Bool × SchemaInfo :=
  match s.schema_.argumentIndexWithName name with
  | some i =>
    let t := s.ensureUpdated
    (Except.ok (t.schema_.mutableForCall i), t)
  | none => (Except.error SchemaError.unknownArgument, s)

/-- The end-to-end example schema of spec §8:
`op(Tensor(a!) self, Tensor other) -> Tensor(a)`. -/
def schema9 : FunctionSchema :=
  { arguments := [ { name := "self", aliasInfo := some { setId := "a", mayWrite := true } },
                   { name := "other", aliasInfo := none } ],
    returns := [ some { setId := "a", mayWrite := false } ] }

/-- A schema with two read-only arguments sharing the static alias set `b`. -/
def schemaXY : FunctionSchema :=
  { arguments := [ { name := "x", aliasInfo := some { setId := "b", mayWrite := false } },
                   { name := "y", aliasInfo := some { setId := "b", mayWrite := false } } ],
    returns := [] }

/-- Analyzer over `schemaXY` with both arguments bound to the same identity. -/
def sBoundSame : SchemaInfo :=
  { value_map_ := [("x", ⟨5⟩), ("y", ⟨5⟩)], input_alias_map_ := [],
    schema_ := schemaXY, updated_ := false }

/-- Analyzer over `schemaXY` with the arguments bound to distinct identities. -/
def sBoundDiff : SchemaInfo :=
  { value_map_ := [("x", ⟨5⟩), ("y", ⟨6⟩)], input_alias_map_ := [],
    schema_ := schemaXY, updated_ := false }

/-! ### Helper lemmas about the binding map -/

theorem ValueMap.find_insertValue_self (m : ValueMap) (name : String) (v : IValue) :
    (m.insertValue name v).find name = some v := by
  simp [ValueMap.insertValue, ValueMap.find]

theorem beqSymm {α : Type} [BEq α] [LawfulBEq α] (a b : α) : (a == b) = (b == a) := by
  by_cases h : a = b
  · rw [h]
  · have h2 : b ≠ a := fun hc => h hc.symm
    simp [beq_iff_eq, h, h2]

theorem ValueMap.find_filter_ne (m : ValueMap) (name other : String)
    (h : other ≠ name) :
    ValueMap.find (m.filter (fun p => p.1 != name)) other = m.find other := by
  induction m with
  | nil => rfl
  | cons p rest ih =>
    by_cases hp : p.1 = name
    · have hno : name ≠ other := fun hc => h hc.symm
      simp [ValueMap.find, List.filter_cons, hp, hno, ih]
    · simp only [List.filter_cons]
      have hb : (p.1 != name) = true := by simp [hp]
      rw [hb]
      simp only [ValueMap.find, ih]

theorem ValueMap.find_insertValue_ne (m : ValueMap) (name other : String)
    (v : IValue) (h : other ≠ name) :
    (m.insertValue name v).find other = m.find other := by
  have hno : name ≠ other := fun hc => h hc.symm
  simp only [ValueMap.insertValue, ValueMap.find, hno, if_false]
  exact ValueMap.find_filter_ne m name other h

theorem ValueMap.insertValue_idem (m : ValueMap) (name : String) (v : IValue) :
    (m.insertValue name v).insertValue name v = m.insertValue name v := by
  have hfix : List.filter (fun (p : String × IValue) => p.1 != name)
      (List.filter (fun p => p.1 != name) m) = List.filter (fun p => p.1 != name) m := by
    rw [List.filter_filter]
    simp
  simp [ValueMap.insertValue, List.filter_cons, hfix]

/-! ### Helper lemmas about the state and the alias graph -/

theorem SchemaInfo.generateAliasMaps_schema (s : SchemaInfo) :
    (s.generateAliasMaps).schema_ = s.schema_ := rfl

theorem SchemaInfo.ensureUpdated_schema (s : SchemaInfo) :
    (s.ensureUpdated).schema_ = s.schema_ := by
  unfold SchemaInfo.ensureUpdated
  split <;> rfl

theorem SchemaInfo.aliasSetOf_generateAliasMaps (s : SchemaInfo) (i : Nat)
    (hi : i < s.schema_.arguments.length) :
    (s.generateAliasMaps).aliasSetOf i =
      (List.range s.schema_.arguments.length).filter
        (fun j => j != i && s.callEdge i j) := by
  unfold SchemaInfo.generateAliasMaps SchemaInfo.aliasSetOf
  simp only
  rw [List.getD_eq_getElem?_getD, List.getElem?_map, List.getElem?_range hi]
  rfl

theorem SchemaInfo.aliasSetOf_generateAliasMaps_oob (s : SchemaInfo) (i : Nat)
    (hi : s.schema_.arguments.length ≤ i) :
    (s.generateAliasMaps).aliasSetOf i = [] := by
  unfold SchemaInfo.generateAliasMaps SchemaInfo.aliasSetOf
  simp only
  rw [List.getD_eq_getElem?_getD, List.getElem?_eq_none (by simpa using hi)]
  rfl

theorem FunctionSchema.sameStaticSet_symm (sch : FunctionSchema) (p q : Nat) :
    sch.sameStaticSet p q = sch.sameStaticSet q p := by
  unfold FunctionSchema.sameStaticSet
  cases sch.positionAliasInfo p with
  | none => cases sch.positionAliasInfo q <;> rfl
  | some a =>
    cases sch.positionAliasInfo q with
    | none => rfl
    | some b => simp only [beqSymm a.setId b.setId]

theorem SchemaInfo.callEdge_symm (s : SchemaInfo) (i j : Nat) :
    s.callEdge i j = s.callEdge j i := by
  unfold SchemaInfo.callEdge
  rw [FunctionSchema.sameStaticSet_symm]
  cases s.boundValueAt i with
  | none => cases s.boundValueAt j <;> rfl
  | some v =>
    cases s.boundValueAt j with
    | none => rfl
    | some w => simp only [beqSymm v.id w.id]

theorem FunctionSchema.sameStaticSet_isSome (sch : FunctionSchema) (p q : Nat)
    (h : sch.sameStaticSet p q = true) :
    (sch.positionAliasInfo p).isSome ∧ (sch.positionAliasInfo q).isSome := by
  unfold FunctionSchema.sameStaticSet at h
  cases hp : sch.positionAliasInfo p <;> cases hq : sch.positionAliasInfo q <;>
    rw [hp, hq] at h <;> simp_all

/-! ### Helper lemmas about positional batch binding -/

theorem applyPositional_find_not_mem (ps : List (String × Option IValue)) :
    ∀ (m : ValueMap) (n : String), (∀ q ∈ ps, q.1 ≠ n) →
      (applyPositional m ps).find n = m.find n := by
  induction ps with
  | nil => intro m n _; rfl
  | cons q rest ih =>
    intro m n h
    obtain ⟨qn, qv⟩ := q
    have hq : qn ≠ n := h (qn, qv) (List.mem_cons_self _ _)
    have hrest : ∀ r ∈ rest, r.1 ≠ n := fun r hr => h r (List.mem_cons_of_mem _ hr)
    cases qv with
    | none => simpa only [applyPositional] using ih m n hrest
    | some v =>
      simp only [applyPositional]
      rw [ih (m.insertValue qn v) n hrest]
      exact ValueMap.find_insertValue_ne m qn n v (fun hc => hq hc.symm)

theorem applyPositional_find_some (ps : List (String × Option IValue)) :
    ∀ (m : ValueMap) (n : String) (v : IValue),
      (ps.map Prod.fst).Nodup → (n, some v) ∈ ps →
      (applyPositional m ps).find n = some v := by
  induction ps with
  | nil => intro m n v _ hmem; cases hmem
  | cons q rest ih =>
    intro m n v hnd hmem
    obtain ⟨qn, qv⟩ := q
    rw [List.map_cons, List.nodup_cons] at hnd
    rcases List.mem_cons.mp hmem with heq | htail
    · cases heq
      simp only [applyPositional]
      rw [applyPositional_find_not_mem rest (m.insertValue n v) n
        (fun r hr hc => hnd.1 (List.mem_map.mpr ⟨r, hr, hc⟩))]
      exact ValueMap.find_insertValue_self m n v
    · have hqn : qn ≠ n := fun hc =>
        hnd.1 (List.mem_map.mpr ⟨(n, some v), htail, by rw [hc]⟩)
      cases qv with
      | none => simp only [applyPositional]; exact ih m n v hnd.2 htail
      | some w => simp only [applyPositional]; exact ih _ n v hnd.2 htail

theorem applyPositional_find_none_entry (ps : List (String × Option IValue)) :
    ∀ (m : ValueMap) (n : String),
      (ps.map Prod.fst).Nodup → (n, none) ∈ ps →
      (applyPositional m ps).find n = m.find n := by
  induction ps with
  | nil => intro m n _ hmem; cases hmem
  | cons q rest ih =>
    intro m n hnd hmem
    obtain ⟨qn, qv⟩ := q
    rw [List.map_cons, List.nodup_cons] at hnd
    rcases List.mem_cons.mp hmem with heq | htail
    · cases heq
      simp only [applyPositional]
      exact applyPositional_find_not_mem rest m n
        (fun r hr hc => hnd.1 (List.mem_map.mpr ⟨r, hr, hc⟩))
    · have hqn : qn ≠ n := fun hc =>
        hnd.1 (List.mem_map.mpr ⟨(n, none), htail, by rw [hc]⟩)
      cases qv with
      | none => simp only [applyPositional]; exact ih m n hnd.2 htail
      | some w =>
        simp only [applyPositional]
        rw [ih (m.insertValue qn w) n hnd.2 htail]
        exact ValueMap.find_insertValue_ne m qn n w (fun hc => hqn hc.symm)

theorem zipBindings_get (args : List Argument) :
    ∀ (vs : List (Option IValue)) (i : Nat) (a : Argument) (ov : Option IValue),
      args.get? i = some a → vs.get? i = some ov →
      (zipBindings args vs).get? i = some (a.name, ov) := by
  induction args with
  | nil => intro vs i a ov ha _; cases i <;> cases ha
  | cons x xs ih =>
    intro vs i a ov ha hv
    cases vs with
    | nil => cases i <;> cases hv
    | cons ov0 ovs =>
      cases i with
      | zero =>
        cases ha; cases hv
        rfl
      | succ k =>
        rw [List.get?_cons_succ] at ha hv
        simpa only [zipBindings, List.get?_cons_succ] using ih ovs k a ov ha hv

theorem zipBindings_fst_mem (args : List Argument) :
    ∀ (vs : List (Option IValue)) (x : String),
      x ∈ (zipBindings args vs).map Prod.fst → x ∈ args.map Argument.name := by
  induction args with
  | nil => intro vs x hx; cases vs <;> cases hx
  | cons a as ih =>
    intro vs x hx
    cases vs with
    | nil => cases hx
    | cons ov ovs =>
      simp only [zipBindings, List.map_cons, List.mem_cons] at hx ⊢
      rcases hx with h | h
      · exact Or.inl h
      · exact Or.inr (ih ovs x h)

theorem zipBindings_fst_nodup (args : List Argument) :
    ∀ (vs : List (Option IValue)), (args.map Argument.name).Nodup →
      ((zipBindings args vs).map Prod.fst).Nodup := by
  induction args with
  | nil => intro vs _; cases vs <;> exact List.nodup_nil
  | cons a as ih =>
    intro vs h
    cases vs with
    | nil => exact List.nodup_nil
    | cons ov ovs =>
      rw [List.map_cons, List.nodup_cons] at h
      simp only [zipBindings, List.map_cons, List.nodup_cons]
      exact ⟨fun hc => h.1 (zipBindings_fst_mem as ovs a.name hc), ih ovs h.2⟩

/-! ### Helper lemmas about the position space and `is_mutable` -/

theorem any_range_getD (l : List (Option AliasInfo)) :
    (List.range l.length).any (fun p => rawMayWrite (l.getD p none)) =
      (l.map rawMayWrite).any id := by
  induction l with
  | nil => rfl
  | cons x xs ih =>
    rw [List.length_cons, List.range_succ_eq_map, List.any_cons, List.any_map,
      List.map_cons, List.any_cons]
    exact congrArg (fun b => rawMayWrite x || b) ih

theorem FunctionSchema.positionInfos_length (sch : FunctionSchema) :
    sch.positionInfos.length = sch.numPositions := by
  simp [FunctionSchema.positionInfos, FunctionSchema.numPositions]

theorem FunctionSchema.rawMayWriteOr_eq (sch : FunctionSchema) :
    sch.rawMayWriteOr = (sch.positionInfos.map rawMayWrite).any id := by
  simp only [FunctionSchema.rawMayWriteOr, FunctionSchema.positionInfos,
    List.map_append, List.map_map]
  rfl

theorem SchemaInfo.is_mutable_fst (s : SchemaInfo) :
    (s.is_mutable).1 = s.schema_.rawMayWriteOr := by
  unfold SchemaInfo.is_mutable
  simp only [SchemaInfo.ensureUpdated_schema]
  rw [FunctionSchema.rawMayWriteOr_eq, ← any_range_getD,
    FunctionSchema.positionInfos_length]
  rfl

/-! ### The analyzer call surface as a step relation -/

/-- One call of the analyzer API: a binding registration or a query. -/
inductive AnalyzerCall where
  | bindOne : String → IValue → AnalyzerCall
  | bindList : List (Option IValue) → AnalyzerCall
  | bindMap : List (String × IValue) → AnalyzerCall
  | queryWholeCall : AnalyzerCall
  | queryIndex : Nat → AnalyzerCall
  | queryName : String → AnalyzerCall
  deriving DecidableEq

/-- Observable outcome of one analyzer call. -/
inductive AnalyzerOutput where
  | onBind : Except SchemaError Unit → AnalyzerOutput
  | onQuery : Except SchemaError Bool → AnalyzerOutput
  deriving DecidableEq

/-- Dispatches one analyzer call on the current state. -/
def stepCall (s : SchemaInfo) (c : AnalyzerCall) : AnalyzerOutput × SchemaInfo :=
  match c with
  | .bindOne n v =>
    let r := s.addArgumentValue n v
    (.onBind r.1, r.2)
  | .bindList vs =>
    let r := s.addArgumentValues vs
    (.onBind r.1, r.2)
  | .bindMap m =>
    let r := s.addArgumentValuesMap m
    (.onBind r.1, r.2)
  | .queryWholeCall =>
    let r := s.is_mutable
    (.onQuery (Except.ok r.1), r.2)
  | .queryIndex i =>
    let r := s.is_mutable_idx i
    (.onQuery r.1, r.2)
  | .queryName n =>
    let r := s.is_mutable_name n
    (.onQuery r.1, r.2)

/-- Runs a sequence of analyzer calls, collecting every observable outcome. -/
def runCalls (s : SchemaInfo) : List AnalyzerCall → List AnalyzerOutput × SchemaInfo
  | [] => ([], s)
  | c :: rest =>
    let r := stepCall s c
    let rr := runCalls r.2 rest
    (r.1 :: rr.1, rr.2)

/-- A schema with two arguments and one return, none of them carrying any
static alias annotation. -/
def schemaNoAnn : FunctionSchema :=
  { arguments := [ { name := "u", aliasInfo := none },
                   { name := "w", aliasInfo := none } ],
    returns := [none] }

/-- Analyzer over `schemaNoAnn` with a value already bound to `u`. -/
def sNoAnnBound : SchemaInfo :=
  { value_map_ := [("u", ⟨3⟩)], input_alias_map_ := [],
    schema_ := schemaNoAnn, updated_ := false }

/-! ### The claims -/

/-- Claim C1: for every schema and any set of bound values, the whole-call
`is_mutable()` query answers `true` iff at least one argument/return position
has its static "may write" flag set; in particular, for a schema with no
static alias annotation on any position it equals the logical OR of the
positions' raw `mayWrite` flags, regardless of which values are bound. -/
theorem c1_is_mutable_whole_call (s : SchemaInfo) :
    ((s.is_mutable).1 = true ↔
      ∃ p, p < s.schema_.numPositions ∧ s.schema_.mutableForCall p = true) ∧
    ((∀ p, s.schema_.positionAliasInfo p = none) →
      (s.is_mutable).1 = s.schema_.rawMayWriteOr) := by
  constructor
  · unfold SchemaInfo.is_mutable
    simp only [SchemaInfo.ensureUpdated_schema]
    rw [List.any_eq_true]
    constructor
    · rintro ⟨p, hp, hm⟩
      exact ⟨p, List.mem_range.mp hp, hm⟩
    · rintro ⟨p, hp, hm⟩
      exact ⟨p, List.mem_range.mpr hp, hm⟩
  · intro _
    exact SchemaInfo.is_mutable_fst s

theorem SchemaInfo.callEdge_some_some (s : SchemaInfo) (i j : Nat) (v w : IValue)
    (hvi : s.boundValueAt i = some v) (hvj : s.boundValueAt j = some w) :
    s.callEdge i j = (s.schema_.sameStaticSet i j && (v.id == w.id)) := by
  unfold SchemaInfo.callEdge
  rw [hvi, hvj]

theorem SchemaInfo.callEdge_unbound (s : SchemaInfo) (i j : Nat)
    (h : s.boundValueAt i = none ∨ s.boundValueAt j = none) :
    s.callEdge i j = s.schema_.sameStaticSet i j := by
  unfold SchemaInfo.callEdge
  rcases h with h | h
  · rw [h]
    cases s.boundValueAt j <;> simp
  · rw [h]
    cases s.boundValueAt i <;> simp

theorem SchemaInfo.mem_aliasSet_iff (s : SchemaInfo) (i j : Nat)
    (hi : i < s.schema_.arguments.length) :
    (j ∈ (s.generateAliasMaps).aliasSetOf i) ↔
      (j < s.schema_.arguments.length ∧ j ≠ i ∧ s.callEdge i j = true) := by
  rw [SchemaInfo.aliasSetOf_generateAliasMaps s i hi, List.mem_filter, List.mem_range]
  constructor
  · rintro ⟨h1, h2⟩
    rw [Bool.and_eq_true] at h2
    exact ⟨h1, by simpa using h2.1, h2.2⟩
  · rintro ⟨h1, h2, h3⟩
    refine ⟨h1, ?_⟩
    rw [Bool.and_eq_true]
    exact ⟨by simpa using h2, h3⟩

/-- Witness for C1: on the spec §8 schema the whole-call query is mutable (the
writable `self` position witnesses the disjunction), and on an annotation-free
schema with a bound value the query equals the raw `mayWrite` OR. -/
theorem c1_witness :
    ((SchemaInfo.ofSchema schema9).is_mutable).1 = true ∧
    (sNoAnnBound.is_mutable).1 = sNoAnnBound.schema_.rawMayWriteOr :=
  ⟨(c1_is_mutable_whole_call (SchemaInfo.ofSchema schema9)).1.mpr
      ⟨0, by decide, by decide⟩,
   (c1_is_mutable_whole_call sNoAnnBound).2
      (fun p => by
        match p with
        | 0 => rfl
        | 1 => rfl
        | 2 => rfl
        | (n + 3) => rfl)⟩

/-- Counterexample to C2 as stated: in the spec §8 schema, `self` (position 0)
and the return (position 2) are in the same static alias set and both sides
are unbound, yet the generated alias graph does not keep the static edge —
the stored graph is an inputs-with-each-other map and never carries an edge
to a return position. -/
theorem c2_counterexample :
    schema9.sameStaticSet 0 2 = true ∧
    (SchemaInfo.ofSchema schema9).boundValueAt 0 = none ∧
    (SchemaInfo.ofSchema schema9).boundValueAt 2 = none ∧
    (2 : Nat) ∉ (((SchemaInfo.ofSchema schema9).generateAliasMaps).aliasSetOf 0) := by
  decide

/-- Claim C2 (amended): for every pair of distinct *argument* positions that
the schema places in the same static alias set, alias-graph generation
removes the edge when both are bound to distinct-identity values, keeps it
when both are bound to same-identity values, and keeps the static edge when
either side is unbound.  (Return positions are not covered: the stored graph
is the header's inputs-with-each-other alias map.) -/
theorem c2_amended_refinement (s : SchemaInfo) (i j : Nat) (v w : IValue)
    (hi : i < s.schema_.arguments.length) (hj : j < s.schema_.arguments.length)
    (hne : i ≠ j) (hstat : s.schema_.sameStaticSet i j = true) :
    (s.boundValueAt i = some v → s.boundValueAt j = some w → v.id ≠ w.id →
      j ∉ (s.generateAliasMaps).aliasSetOf i) ∧
    (s.boundValueAt i = some v → s.boundValueAt j = some w → v.id = w.id →
      j ∈ (s.generateAliasMaps).aliasSetOf i) ∧
    ((s.boundValueAt i = none ∨ s.boundValueAt j = none) →
      j ∈ (s.generateAliasMaps).aliasSetOf i) := by
  refine ⟨?_, ?_, ?_⟩
  · intro hvi hvj hvne hmem
    rw [SchemaInfo.mem_aliasSet_iff s i j hi] at hmem
    have hedge := hmem.2.2
    rw [SchemaInfo.callEdge_some_some s i j v w hvi hvj, Bool.and_eq_true] at hedge
    exact hvne (by simpa using hedge.2)
  · intro hvi hvj hveq
    rw [SchemaInfo.mem_aliasSet_iff s i j hi]
    refine ⟨hj, fun hc => hne hc.symm, ?_⟩
    rw [SchemaInfo.callEdge_some_some s i j v w hvi hvj, Bool.and_eq_true]
    exact ⟨hstat, by simpa using hveq⟩
  · intro hunb
    rw [SchemaInfo.mem_aliasSet_iff s i j hi]
    refine ⟨hj, fun hc => hne hc.symm, ?_⟩
    rw [SchemaInfo.callEdge_unbound s i j hunb]
    exact hstat

/-- Witness for the amended C2: with both arguments of `schemaXY` bound to
the same identity the edge is kept, and with distinct identities it is
removed. -/
theorem c2_witness :
    (1 : Nat) ∈ ((sBoundSame.generateAliasMaps).aliasSetOf 0) ∧
    (1 : Nat) ∉ ((sBoundDiff.generateAliasMaps).aliasSetOf 0) :=
  ⟨(c2_amended_refinement sBoundSame 0 1 ⟨5⟩ ⟨5⟩ (by decide) (by decide)
      (by decide) (by decide)).2.1 (by decide) (by decide) rfl,
   (c2_amended_refinement sBoundDiff 0 1 ⟨5⟩ ⟨6⟩ (by decide) (by decide)
      (by decide) (by decide)).1 (by decide) (by decide) (by decide)⟩

/-- Claim C3: every edge of the generated alias graph is symmetric, joins two
distinct positions that the static annotations place in the same alias set —
so refinement may only remove statically implied edges, never invents one
between statically disjoint positions — and in particular a position with no
static annotation never gains an edge, whatever values are bound. -/
theorem c3_refines_static (s : SchemaInfo) (i j : Nat)
    (h : j ∈ (s.generateAliasMaps).aliasSetOf i) :
    i ∈ (s.generateAliasMaps).aliasSetOf j ∧
    s.schema_.sameStaticSet i j = true ∧
    j ≠ i ∧
    (s.schema_.positionAliasInfo i).isSome ∧
    (s.schema_.positionAliasInfo j).isSome := by
  by_cases hi : i < s.schema_.arguments.length
  case neg =>
    rw [SchemaInfo.aliasSetOf_generateAliasMaps_oob s i (Nat.le_of_not_lt hi)] at h
    cases h
  case pos =>
    rw [SchemaInfo.mem_aliasSet_iff s i j hi] at h
    obtain ⟨hj, hne, hedge⟩ := h
    have hstat : s.schema_.sameStaticSet i j = true := by
      unfold SchemaInfo.callEdge at hedge
      rw [Bool.and_eq_true] at hedge
      exact hedge.1
    have hsome := FunctionSchema.sameStaticSet_isSome s.schema_ i j hstat
    refine ⟨?_, hstat, hne, hsome.1, hsome.2⟩
    rw [SchemaInfo.mem_aliasSet_iff s j i hj]
    refine ⟨hi, fun hc => hne hc.symm, ?_⟩
    rw [← SchemaInfo.callEdge_symm s i j]
    exact hedge

/-- Witness for C3: the static edge between the two unbound arguments of
`schemaXY` is symmetric, statically implied, irreflexive, and both of its
endpoints carry static annotations. -/
theorem c3_witness :
    (0 : Nat) ∈ (((SchemaInfo.ofSchema schemaXY).generateAliasMaps).aliasSetOf 1) ∧
    (SchemaInfo.ofSchema schemaXY).schema_.sameStaticSet 0 1 = true ∧
    (1 : Nat) ≠ 0 ∧
    ((SchemaInfo.ofSchema schemaXY).schema_.positionAliasInfo 0).isSome ∧
    ((SchemaInfo.ofSchema schemaXY).schema_.positionAliasInfo 1).isSome :=
  c3_refines_static (SchemaInfo.ofSchema schemaXY) 0 1 (by decide)

/-- Counterexample to C4 as stated: after generation on the spec §8 schema
there are three argument/return positions but the generated alias graph has
exactly two entries — the return position (index 2) is assigned no alias
set, because the header's only alias storage is the inputs-with-each-other
map. -/
theorem c4_counterexample :
    ((SchemaInfo.ofSchema schema9).generateAliasMaps).schema_.numPositions = 3 ∧
    ((SchemaInfo.ofSchema schema9).generateAliasMaps).input_alias_map_.length = 2 ∧
    ((SchemaInfo.ofSchema schema9).generateAliasMaps).input_alias_map_.get? 2 = none := by
  decide

/-- Claim C4 (amended): after alias-graph generation every *argument*
position is assigned an alias set — a set of other argument positions with
itself excluded — and the generated graph covers exactly the argument
positions, not the returns. -/
theorem c4_amended_inputs_covered (s : SchemaInfo) (i : Nat)
    (hi : i < s.schema_.arguments.length) :
    (s.generateAliasMaps).input_alias_map_.length = s.schema_.arguments.length ∧
    ((s.generateAliasMaps).input_alias_map_.get? i).isSome ∧
    i ∉ (s.generateAliasMaps).aliasSetOf i ∧
    (∀ j ∈ (s.generateAliasMaps).aliasSetOf i, j < s.schema_.arguments.length) := by
  have hlen : (s.generateAliasMaps).input_alias_map_.length =
      s.schema_.arguments.length := by
    unfold SchemaInfo.generateAliasMaps
    simp
  refine ⟨hlen, ?_, ?_, ?_⟩
  · rw [List.get?_eq_getElem?, List.getElem?_eq_getElem (by rw [hlen]; exact hi)]
    rfl
  · intro hmem
    exact ((SchemaInfo.mem_aliasSet_iff s i i hi).mp hmem).2.1 rfl
  · intro j hmem
    exact ((SchemaInfo.mem_aliasSet_iff s i j hi).mp hmem).1

/-- Witness for the amended C4: on the spec §8 schema, argument position 0
has an entry, excludes itself, and its alias set stays within the argument
positions. -/
theorem c4_witness :
    ((SchemaInfo.ofSchema schema9).generateAliasMaps).input_alias_map_.length =
      (SchemaInfo.ofSchema schema9).schema_.arguments.length ∧
    (((SchemaInfo.ofSchema schema9).generateAliasMaps).input_alias_map_.get? 0).isSome ∧
    (0 : Nat) ∉ (((SchemaInfo.ofSchema schema9).generateAliasMaps).aliasSetOf 0) ∧
    (∀ j ∈ ((SchemaInfo.ofSchema schema9).generateAliasMaps).aliasSetOf 0,
      j < (SchemaInfo.ofSchema schema9).schema_.arguments.length) :=
  c4_amended_inputs_covered (SchemaInfo.ofSchema schema9) 0 (by decide)

/-- Claim C5: `addArgumentValue(name, value)` fails with `unknownArgument`
when the name matches no schema argument, leaving the state untouched; on a
matching name it succeeds, overwrites any prior binding of that name, marks
the graph stale, and has no other side effect (other bindings, the stored
schema, and the cached alias map are unchanged). -/
theorem c5_addArgumentValue_contract (s : SchemaInfo) (name other : String)
    (value : IValue) (hother : other ≠ name) :
    (s.schema_.hasArgument name = false →
      s.addArgumentValue name value = (Except.error SchemaError.unknownArgument, s)) ∧
    (s.schema_.hasArgument name = true →
      (s.addArgumentValue name value).1 = Except.ok () ∧
      (s.addArgumentValue name value).2.value_map_.find name = some value ∧
      (s.addArgumentValue name value).2.value_map_.find other =
        s.value_map_.find other ∧
      (s.addArgumentValue name value).2.updated_ = false ∧
      (s.addArgumentValue name value).2.schema_ = s.schema_ ∧
      (s.addArgumentValue name value).2.input_alias_map_ = s.input_alias_map_) := by
  constructor
  · intro h
    unfold SchemaInfo.addArgumentValue
    rw [if_neg (fun hc => Bool.false_ne_true (h ▸ hc))]
  · intro h
    have hres : s.addArgumentValue name value = (Except.ok (), { s with value_map_ := s.value_map_.insertValue name value, updated_ := false }) := by
      unfold SchemaInfo.addArgumentValue
      rw [if_pos h]
    rw [hres]
    exact ⟨rfl, ValueMap.find_insertValue_self _ _ _,
      ValueMap.find_insertValue_ne _ _ _ _ hother, rfl, rfl, rfl⟩

/-- Witness for C5: binding `self` on the spec §8 schema succeeds, records
the value, leaves the absent `other` binding absent, and marks the graph
stale. -/
theorem c5_witness :
    ((SchemaInfo.ofSchema schema9).addArgumentValue ("self") ⟨3⟩).1 = Except.ok () ∧
    ((SchemaInfo.ofSchema schema9).addArgumentValue ("self") ⟨3⟩).2.value_map_.find
      ("self") = some ⟨3⟩ ∧
    ((SchemaInfo.ofSchema schema9).addArgumentValue ("self") ⟨3⟩).2.value_map_.find
      ("other") = (SchemaInfo.ofSchema schema9).value_map_.find ("other") ∧
    ((SchemaInfo.ofSchema schema9).addArgumentValue ("self") ⟨3⟩).2.updated_ = false :=
  have h := (c5_addArgumentValue_contract (SchemaInfo.ofSchema schema9)
      ("self") ("other") ⟨3⟩ (by decide)).2 (by decide)
  ⟨h.1, h.2.1, h.2.2.1, h.2.2.2.1⟩

/-- Claim C6: the positional batch binder fails with `arityMismatch` when the
list is longer than the schema arity, leaving the state untouched; otherwise
it succeeds, binds each schema argument in signature order with "no value"
entries leaving that argument's binding untouched, changes nothing besides
the binding map, and leaves the graph marked stale once, after all bindings
are applied. -/
theorem c6_addArgumentValues_contract (s : SchemaInfo) (vs : List (Option IValue))
    (i : Nat) (a : Argument) (v : IValue)
    (hnd : (s.schema_.arguments.map Argument.name).Nodup) :
    (s.schema_.arguments.length < vs.length →
      s.addArgumentValues vs = (Except.error SchemaError.arityMismatch, s)) ∧
    (vs.length ≤ s.schema_.arguments.length →
      (s.addArgumentValues vs).1 = Except.ok () ∧
      (s.addArgumentValues vs).2.updated_ = false ∧
      (s.addArgumentValues vs).2.schema_ = s.schema_ ∧
      (s.addArgumentValues vs).2.input_alias_map_ = s.input_alias_map_ ∧
      (s.schema_.arguments.get? i = some a → vs.get? i = some (some v) →
        (s.addArgumentValues vs).2.value_map_.find a.name = some v) ∧
      (s.schema_.arguments.get? i = some a → vs.get? i = some none →
        (s.addArgumentValues vs).2.value_map_.find a.name =
          s.value_map_.find a.name)) := by
  constructor
  · intro h
    unfold SchemaInfo.addArgumentValues
    rw [if_pos h]
  · intro h
    have hnlt : ¬ (s.schema_.arguments.length < vs.length) := Nat.not_lt.mpr h
    have hres : s.addArgumentValues vs = (Except.ok (), { s with value_map_ := applyPositional s.value_map_ (zipBindings s.schema_.arguments vs), updated_ := false }) := by
      unfold SchemaInfo.addArgumentValues
      rw [if_neg hnlt]
    rw [hres]
    refine ⟨rfl, rfl, rfl, rfl, ?_, ?_⟩
    · intro ha hv
      exact applyPositional_find_some _ _ _ v (zipBindings_fst_nodup _ _ hnd)
        (List.get?_mem (zipBindings_get _ _ i a (some v) ha hv))
    · intro ha hv
      exact applyPositional_find_none_entry _ _ _ (zipBindings_fst_nodup _ _ hnd)
        (List.get?_mem (zipBindings_get _ _ i a none ha hv))

/-- Witness for C6: on `schemaXY` the batch `[some 7, none]` succeeds, marks
the graph stale, binds `x` to the value and leaves `y` unbound. -/
theorem c6_witness :
    ((SchemaInfo.ofSchema schemaXY).addArgumentValues [some ⟨7⟩, none]).1 =
      Except.ok () ∧
    ((SchemaInfo.ofSchema schemaXY).addArgumentValues [some ⟨7⟩, none]).2.updated_ =
      false ∧
    ((SchemaInfo.ofSchema schemaXY).addArgumentValues
      [some ⟨7⟩, none]).2.value_map_.find ("x") = some ⟨7⟩ ∧
    ((SchemaInfo.ofSchema schemaXY).addArgumentValues
      [some ⟨7⟩, none]).2.value_map_.find ("y") =
        (SchemaInfo.ofSchema schemaXY).value_map_.find ("y") :=
  have h := (c6_addArgumentValues_contract (SchemaInfo.ofSchema schemaXY)
      [some ⟨7⟩, none] 0
      { name := "x", aliasInfo := some { setId := "b", mayWrite := false } }
      ⟨7⟩ (by decide)).2 (by decide)
  have h2 := (c6_addArgumentValues_contract (SchemaInfo.ofSchema schemaXY)
      [some ⟨7⟩, none] 1
      { name := "y", aliasInfo := some { setId := "b", mayWrite := false } }
      ⟨7⟩ (by decide)).2 (by decide)
  ⟨h.1, h.2.1, h.2.2.2.2.1 (by decide) rfl, h2.2.2.2.2.2 (by decide) rfl⟩

/-- Claim C7: every failing binding or query call is atomic — it leaves the
analyzer state exactly as it was before the call, so a caller can retry with
corrected input. -/
theorem c7_failures_leave_state (s : SchemaInfo) (name qname : String)
    (value : IValue) (vs : List (Option IValue)) (m : List (String × IValue))
    (index : Nat) (e : SchemaError) :
    ((s.addArgumentValue name value).1 = Except.error e →
      (s.addArgumentValue name value).2 = s) ∧
    ((s.addArgumentValues vs).1 = Except.error e →
      (s.addArgumentValues vs).2 = s) ∧
    ((s.addArgumentValuesMap m).1 = Except.error e →
      (s.addArgumentValuesMap m).2 = s) ∧
    ((s.is_mutable_idx index).1 = Except.error e →
      (s.is_mutable_idx index).2 = s) ∧
    ((s.is_mutable_name qname).1 = Except.error e →
      (s.is_mutable_name qname).2 = s) := by
  refine ⟨?_, ?_, ?_, ?_, ?_⟩
  · unfold SchemaInfo.addArgumentValue
    split
    · intro h
      exact Except.noConfusion h
    · intro _
      rfl
  · unfold SchemaInfo.addArgumentValues
    split
    · intro _
      rfl
    · intro h
      exact Except.noConfusion h
  · unfold SchemaInfo.addArgumentValuesMap
    split
    · intro h
      exact Except.noConfusion h
    · intro _
      rfl
  · unfold SchemaInfo.is_mutable_idx
    split
    · intro h
      exact Except.noConfusion h
    · intro _
      rfl
  · unfold SchemaInfo.is_mutable_name
    split
    · intro h
      exact Except.noConfusion h
    · intro _
      rfl

/-- Witness for C7: a binding under an unknown name, an over-long positional
batch, a batch map with an unknown key, an out-of-range index query and an
unknown-name query each leave the pristine analyzer state unchanged. -/
theorem c7_witness :
    ((SchemaInfo.ofSchema schema9).addArgumentValue ("bogus") ⟨1⟩).2 =
      SchemaInfo.ofSchema schema9 ∧
    ((SchemaInfo.ofSchema schema9).addArgumentValues
      [some ⟨1⟩, some ⟨2⟩, some ⟨3⟩, some ⟨4⟩]).2 = SchemaInfo.ofSchema schema9 ∧
    ((SchemaInfo.ofSchema schema9).addArgumentValuesMap [(("bogus"), ⟨1⟩)]).2 =
      SchemaInfo.ofSchema schema9 ∧
    ((SchemaInfo.ofSchema schema9).is_mutable_idx 3).2 =
      SchemaInfo.ofSchema schema9 ∧
    ((SchemaInfo.ofSchema schema9).is_mutable_name ("bogus")).2 =
      SchemaInfo.ofSchema schema9 :=
  have h := c7_failures_leave_state (SchemaInfo.ofSchema schema9) ("bogus")
    ("bogus") ⟨1⟩ [some ⟨1⟩, some ⟨2⟩, some ⟨3⟩, some ⟨4⟩] [(("bogus"), ⟨1⟩)] 3
    SchemaError.unknownArgument
  have harity := c7_failures_leave_state (SchemaInfo.ofSchema schema9) ("bogus")
    ("bogus") ⟨1⟩ [some ⟨1⟩, some ⟨2⟩, some ⟨3⟩, some ⟨4⟩] [(("bogus"), ⟨1⟩)] 3
    SchemaError.arityMismatch
  have hrange := c7_failures_leave_state (SchemaInfo.ofSchema schema9) ("bogus")
    ("bogus") ⟨1⟩ [some ⟨1⟩, some ⟨2⟩, some ⟨3⟩, some ⟨4⟩] [(("bogus"), ⟨1⟩)] 3
    SchemaError.outOfRange
  ⟨h.1 (by decide), harity.2.1 (by decide), h.2.2.1 (by decide),
   hrange.2.2.2.1 (by decide), h.2.2.2.2 (by decide)⟩

/-- Claim C8: registering the same `(name, value)` binding twice in a row
yields exactly the analyzer state — hence the same alias graph and the same
outcomes for every subsequent call sequence — as registering it once. -/
theorem c8_addArgumentValue_idem (s : SchemaInfo) (name : String) (value : IValue) :
    ((s.addArgumentValue name value).2.addArgumentValue name value) =
      ((s.addArgumentValue name value).1, (s.addArgumentValue name value).2) ∧
    (∀ cs, runCalls ((s.addArgumentValue name value).2.addArgumentValue name
        value).2 cs = runCalls (s.addArgumentValue name value).2 cs) := by
  have hmain : ((s.addArgumentValue name value).2.addArgumentValue name value) =
      ((s.addArgumentValue name value).1, (s.addArgumentValue name value).2) := by
    by_cases h : s.schema_.hasArgument name = true
    · have hres : s.addArgumentValue name value = (Except.ok (), { s with value_map_ := s.value_map_.insertValue name value, updated_ := false }) := by
        unfold SchemaInfo.addArgumentValue
        rw [if_pos h]
      rw [hres]
      dsimp only
      unfold SchemaInfo.addArgumentValue
      dsimp only
      rw [if_pos h, ValueMap.insertValue_idem]
    · have hres : s.addArgumentValue name value = (Except.error SchemaError.unknownArgument, s) := by
        unfold SchemaInfo.addArgumentValue
        rw [if_neg h]
      rw [hres]
      dsimp only
      exact hres
  refine ⟨hmain, fun cs => ?_⟩
  rw [hmain]

/-- Claim C9: end-to-end behaviour on `op(Tensor(a!) self, Tensor other) ->
Tensor(a)`: with no bound values the whole-call query answers true, `self` is
mutable and `other` is not; binding `self` and `other` to distinct-identity
values leaves all three answers unchanged. -/
theorem c9_end_to_end :
    ((SchemaInfo.ofSchema schema9).is_mutable).1 = true ∧
    ((SchemaInfo.ofSchema schema9).is_mutable_name ("self")).1 = Except.ok true ∧
    ((SchemaInfo.ofSchema schema9).is_mutable_name ("other")).1 = Except.ok false ∧
    ((((SchemaInfo.ofSchema schema9).addArgumentValue ("self")
      ⟨1⟩).2.addArgumentValue ("other") ⟨2⟩).2.is_mutable).1 = true ∧
    ((((SchemaInfo.ofSchema schema9).addArgumentValue ("self")
      ⟨1⟩).2.addArgumentValue ("other") ⟨2⟩).2.is_mutable_name ("self")).1 =
        Except.ok true ∧
    ((((SchemaInfo.ofSchema schema9).addArgumentValue ("self")
      ⟨1⟩).2.addArgumentValue ("other") ⟨2⟩).2.is_mutable_name ("other")).1 =
        Except.ok false := by
  decide

/-- Claim C10: constructing the analyzer from a textual signature is the same
as constructing it from the parsed schema: both start with an empty binding
map and the graph marked stale, and every subsequent sequence of binding and
query calls produces identical outcomes and identical states. -/
theorem c10_constructor_equivalence (parse : String → FunctionSchema)
    (signature : String) :
    SchemaInfo.ofSignature parse signature = SchemaInfo.ofSchema (parse signature) ∧
    (SchemaInfo.ofSignature parse signature).value_map_ = [] ∧
    (SchemaInfo.ofSignature parse signature).updated_ = false ∧
    (∀ cs, runCalls (SchemaInfo.ofSignature parse signature) cs =
      runCalls (SchemaInfo.ofSchema (parse signature)) cs) :=
  ⟨rfl, rfl, rfl, fun _ => rfl⟩

end TorchUtils
